import Mathlib

/-!
# Verification of the tic-tac-squared rules engine and move-search AI

Shallow embedding of `src/lib/game/GameState.ts` (the match engine) and
`src/lib/game/CpuPlayer.ts` (the move-search AI) of the `tic-tac-squared`
repository, together with proofs about the embedded definitions.

Modelling conventions:
* JavaScript `'X' | 'O'` is `Player`; a cell value `'X' | 'O' | null` is
  `Option Player` (`none` = `null`).
* The nine cells of a `Board` are a function `Fin 9 → Cell`; the nine small
  boards are `Fin 9 → Fin 9 → Cell`.  The UI-facing 2D representation
  produced by `to2DArray` is `Fin 3 → Fin 3 → Cell`.
* JavaScript numbers that index boards and cells are `Int`.  Indexing a
  9-element array with an out-of-range number yields `undefined` in JS;
  this is `toFin9 : Int → Option (Fin 9)` returning `none`.  A subsequent
  property access on `undefined` throws a `TypeError`; functions that can
  throw return `Except String _`, with `.error` the thrown exception.
* JS strict inequality `value !== null` is true for `undefined`, so a cell
  read that produced `undefined` still counts as "not null".
-/

namespace TicTacSquared

/-- The two marks, `'X' | 'O'` in the source. -/
inductive Player where
  | X
  | O
deriving DecidableEq, Repr, Fintype

/-- `CellValue = Player | null`; `none` models `null`. -/
abbrev Cell := Option Player

/-- `GameRules = 'standard' | 'free-play'`. -/
inductive GameRules where
  | standard
  | freePlay
deriving DecidableEq, Repr

/-- `GameMode = 'human-vs-human' | 'human-vs-cpu' | 'online-multiplayer'`. -/
inductive GameMode where
  | humanVsHuman
  | humanVsCpu
  | onlineMultiplayer
deriving DecidableEq, Repr

/-- `CpuDifficulty = 'easy' | 'moderate' | 'expert'`. -/
inductive CpuDifficulty where
  | easy
  | moderate
  | expert
deriving DecidableEq, Repr

/-- `OnlineStatus = 'host' | 'guest' | null`; `none` models `null`. -/
inductive OnlineRole where
  | host
  | guest
deriving DecidableEq, Repr

abbrev OnlineStatus := Option OnlineRole

/-- `currentPlayer === 'X' ? 'O' : 'X'`. -/
def otherPlayer : Player → Player
  | .X => .O
  | .O => .X

/-- JS array indexing of a 9-element array by an arbitrary number:
`some` of the index when it is in range, `none` (= `undefined`) otherwise. -/
def toFin9 (i : Int) : Option (Fin 9) :=
  if h : 0 ≤ i ∧ i < 9 then some ⟨i.toNat, by omega⟩ else none

/-- `Board.coordinatesToIndex(row, col) = row * 3 + col`. -/
def idx33 (r c : Fin 3) : Fin 9 :=
  ⟨r.val * 3 + c.val, by omega⟩

/-- `Math.floor(index / 3)` for an in-range cell index. -/
def cellRow (i : Fin 9) : Fin 3 :=
  ⟨i.val / 3, by omega⟩

/-- `index % 3` for an in-range cell index. -/
def cellCol (i : Fin 9) : Fin 3 :=
  ⟨i.val % 3, by omega⟩

/-- The `WIN_PATTERNS` constant: 3 rows, 3 columns, 2 diagonals. -/
def winPatterns : List (Fin 9 × Fin 9 × Fin 9) :=
  [(0, 1, 2), (3, 4, 5), (6, 7, 8),
   (0, 3, 6), (1, 4, 7), (2, 5, 8),
   (0, 4, 8), (2, 4, 6)]

/-- The loop body of `Board.checkWinner`: scan the patterns in order and
return the first mark occupying a whole line (`cells[a] && cells[a] ===
cells[b] && cells[a] === cells[c]`), else `null`. -/
def checkWinnerAux (cells : Fin 9 → Cell) : List (Fin 9 × Fin 9 × Fin 9) → Cell
  | [] => none
  | (a, b, c) :: ps =>
    match cells a with
    | some p => if cells b = some p ∧ cells c = some p then some p else checkWinnerAux cells ps
    | none => checkWinnerAux cells ps

/-- `Board.checkWinner()`. -/
def checkWinner (cells : Fin 9 → Cell) : Cell :=
  checkWinnerAux cells winPatterns

/-- `Board.isFull()`: every cell is non-null. -/
def isFull (cells : Fin 9 → Cell) : Bool :=
  decide (∀ i : Fin 9, cells i ≠ none)

/-- `Board.setCell(index, value)` (functional update of the cell array). -/
def setCellF (cells : Fin 9 → Cell) (i : Fin 9) (v : Cell) : Fin 9 → Cell :=
  fun j => if j = i then v else cells j

/-- The `Move` record `{ boardIndex, cellIndex, player }` stored in
`lastMove`; the indices are raw JS numbers. -/
structure Move where
  boardIndex : Int
  cellIndex : Int
  player : Player
deriving DecidableEq, Repr

/-- The mutable closure state of `createGameState`: the nine small boards,
the meta-board, and the scalar variables. -/
@[ext]
structure Engine where
  boards : Fin 9 → Fin 9 → Cell
  meta : Fin 9 → Cell
  currentPlayer : Player
  activeBoard : Option Int
  winner : Cell
  isDraw : Bool
  lastMove : Option Move
  gameRules : GameRules
  gameMode : GameMode
  cpuDifficulty : CpuDifficulty
  onlineStatus : OnlineStatus
deriving DecidableEq

/-- The state `createGameState` builds before loading any `initialState`:
all boards empty, player `X`, `activeBoard` null, default settings.  The
`rules` argument also covers engines whose rules were switched by
`setGameRules`/`resetGame` before any move was made. -/
def freshEngine (rules : GameRules) : Engine where
  boards := fun _ _ => none
  meta := fun _ => none
  currentPlayer := .X
  activeBoard := none
  winner := none
  isDraw := false
  lastMove := none
  gameRules := rules
  gameMode := .humanVsHuman
  cpuDifficulty := .moderate
  onlineStatus := none

/-- `checkGameDraw`: `false` if there is a winner, else `true` iff every
small board is either won on the meta-board or full. -/
def checkGameDraw (boards : Fin 9 → Fin 9 → Cell) (meta : Fin 9 → Cell)
    (winner : Cell) : Bool :=
  if winner ≠ none then false
  else decide (∀ i : Fin 9, meta i ≠ none ∨ isFull (boards i))

/-- The mutation phase of `makeMove`, after all guards passed: place the
mark, record `lastMove`, update the meta-board and `winner`, recompute
`isDraw`, recompute `activeBoard`, switch the player.  The routing check
reads the already-updated meta-board and boards. -/
def applyMove (e : Engine) (b c : Fin 9) : Engine :=
  let boards1 : Fin 9 → Fin 9 → Cell :=
    fun i => if i = b then setCellF (e.boards b) c (some e.currentPlayer) else e.boards i
  let bw := checkWinner (boards1 b)
  let meta1 := if bw ≠ none then setCellF e.meta b bw else e.meta
  let winner1 := if bw ≠ none then checkWinner meta1 else e.winner
  let isDraw1 := if winner1 = none then checkGameDraw boards1 meta1 winner1 else e.isDraw
  let active1 : Option Int :=
    match e.gameRules with
    | .standard => if (meta1 c).isSome || isFull (boards1 c) then none else some (c.val : Int)
    | .freePlay => none
  { e with
    boards := boards1
    meta := meta1
    currentPlayer := otherPlayer e.currentPlayer
    activeBoard := active1
    winner := winner1
    isDraw := isDraw1
    lastMove := some ⟨(b.val : Int), (c.val : Int), e.currentPlayer⟩ }

/-- The part of `makeMove` after `const targetBoard = smallBoards[boardIndex]`
succeeded (board index in range).  Reading `targetBoard.cells[cellIndex]`
with an out-of-range `cellIndex` yields `undefined`, and `undefined !== null`
holds in JS, so the "cell is already taken" guard fires and the call is a
no-op. -/
def movePhase2 (e : Engine) (b : Fin 9) (ci : Int) : Engine :=
  match toFin9 ci with
  | none => e
  | some c => if (e.boards b c).isSome || (e.meta b).isSome then e else applyMove e b c

/-- `makeMove(boardIndex, cellIndex)` (the engine method, via
`makeMoveAndSave`; saving to localStorage is I/O and does not change the
engine state).  An out-of-range `boardIndex` makes `smallBoards[boardIndex]`
`undefined`, and the subsequent `targetBoard.cells` access throws a
`TypeError`, modelled as `.error`. -/
def makeMove (e : Engine) (bi ci : Int) : Except String Engine :=
  if (e.winner).isSome || e.isDraw then .ok e
  else if e.gameRules = .standard ∧ e.activeBoard ≠ none ∧ e.activeBoard ≠ some bi then .ok e
  else
    match toFin9 bi with
    | none => .error "TypeError: cannot read properties of undefined (reading cells)"
    | some b => .ok (movePhase2 e b ci)

/-- `checkValidMove(boardIndex, cellIndex)`: the same guards as `makeMove`,
without mutation.  It dereferences `smallBoards[boardIndex]` the same way,
so it too throws on an out-of-range board index. -/
def checkValidMove (e : Engine) (bi ci : Int) : Except String Bool :=
  if (e.winner).isSome || e.isDraw then .ok false
  else if e.gameRules = .standard ∧ e.activeBoard ≠ none ∧ e.activeBoard ≠ some bi then .ok false
  else
    match toFin9 bi with
    | none => .error "TypeError: cannot read properties of undefined (reading cells)"
    | some b =>
      match toFin9 ci with
      | none => .ok false
      | some c => if (e.boards b c).isSome || (e.meta b).isSome then .ok false else .ok true

/-- `Board.to2DArray()`. -/
def to2DArray (cells : Fin 9 → Cell) : Fin 3 → Fin 3 → Cell :=
  fun r c => cells (idx33 r c)

/-- The `GameState` snapshot record returned by `getState()`. -/
@[ext]
structure GameState where
  boards : Fin 9 → Fin 3 → Fin 3 → Cell
  boardWinners : Fin 9 → Cell
  currentPlayer : Player
  activeBoard : Option Int
  winner : Cell
  isDraw : Bool
  lastMove : Option Move
  gameRules : GameRules
  gameMode : GameMode
  cpuDifficulty : CpuDifficulty
  onlineStatus : OnlineStatus
deriving DecidableEq

/-- `getState()`: `boards` goes through `to2DArray` (fresh arrays),
`boardWinners` is the meta-board's cell array, the scalars are copied. -/
def getState (e : Engine) : GameState where
  boards := fun i => to2DArray (e.boards i)
  boardWinners := e.meta
  currentPlayer := e.currentPlayer
  activeBoard := e.activeBoard
  winner := e.winner
  isDraw := e.isDraw
  lastMove := e.lastMove
  gameRules := e.gameRules
  gameMode := e.gameMode
  cpuDifficulty := e.cpuDifficulty
  onlineStatus := e.onlineStatus

/-- `createGameState(initialState?)`: start from the fresh state; if an
initial snapshot is given, write each truthy cell of `initialState.boards`
into the small boards, each truthy entry of `initialState.boardWinners`
into the meta-board, copy the scalar fields, and copy each game setting
when truthy (`gameRules`, `gameMode`, `cpuDifficulty` are always truthy
strings; a `null` `onlineStatus` leaves the default `null`). -/
def createGameState (init : Option GameState) : Engine :=
  match init with
  | none => freshEngine .standard
  | some s =>
    { boards := fun i j =>
        match s.boards i (cellRow j) (cellCol j) with
        | some p => some p
        | none => none
      meta := fun i =>
        match s.boardWinners i with
        | some p => some p
        | none => none
      currentPlayer := s.currentPlayer
      activeBoard := s.activeBoard
      winner := s.winner
      isDraw := s.isDraw
      lastMove := s.lastMove
      gameRules := s.gameRules
      gameMode := s.gameMode
      cpuDifficulty := s.cpuDifficulty
      onlineStatus :=
        match s.onlineStatus with
        | some r => some r
        | none => none }

/-- Run a sequence of `makeMove` calls, propagating a thrown exception. -/
def runMoves (e : Engine) : List (Int × Int) → Except String Engine
  | [] => .ok e
  | (bi, ci) :: ms =>
    match makeMove e bi ci with
    | .ok e1 => runMoves e1 ms
    | .error s => .error s

/-- Engine states reachable from a fresh match by `makeMove` calls. -/
inductive Reachable : Engine → Prop where
  | fresh (rules : GameRules) : Reachable (freshEngine rules)
  | step {e e1 : Engine} (bi ci : Int) :
      Reachable e → makeMove e bi ci = .ok e1 → Reachable e1

/-! ## Basic lemmas about the engine embedding -/

theorem bor_false_split {a b : Bool} (h : ¬(a || b) = true) :
    a = false ∧ b = false := by
  cases a <;> cases b <;> simp_all

theorem eq_none_of_isSome_false {α : Type} {o : Option α}
    (h : o.isSome = false) : o = none := by
  cases o with
  | none => rfl
  | some a => simp at h

theorem toFin9_eq_some {i : Int} {c : Fin 9} (h : toFin9 i = some c) :
    (c.val : Int) = i := by
  unfold toFin9 at h
  split at h
  · rename_i hrange
    injection h with h
    subst h
    show ((i.toNat : Nat) : Int) = i
    omega
  · cases h

theorem toFin9_coe (c : Fin 9) : toFin9 (c.val : Int) = some c := by
  unfold toFin9
  rw [dif_pos (by omega)]
  exact congrArg some (Fin.ext (show ((c.val : Int)).toNat = c.val by omega))

theorem idx33_cellRow_cellCol (j : Fin 9) : idx33 (cellRow j) (cellCol j) = j := by
  cases j with
  | mk v hv =>
    simp only [idx33, cellRow, cellCol]
    exact Fin.ext (show v / 3 * 3 + v % 3 = v by omega)

/-! Projection lemmas for `applyMove`; each holds by unfolding the record
literal and the let-bindings. -/

theorem applyMove_boards (e : Engine) (b c i : Fin 9) :
    (applyMove e b c).boards i =
      if i = b then setCellF (e.boards b) c (some e.currentPlayer)
      else e.boards i := rfl

theorem applyMove_meta (e : Engine) (b c : Fin 9) :
    (applyMove e b c).meta =
      if checkWinner ((applyMove e b c).boards b) ≠ none
      then setCellF e.meta b (checkWinner ((applyMove e b c).boards b))
      else e.meta := rfl

theorem applyMove_winner (e : Engine) (b c : Fin 9) :
    (applyMove e b c).winner =
      if checkWinner ((applyMove e b c).boards b) ≠ none
      then checkWinner ((applyMove e b c).meta)
      else e.winner := rfl

theorem applyMove_isDraw (e : Engine) (b c : Fin 9) :
    (applyMove e b c).isDraw =
      if (applyMove e b c).winner = none
      then checkGameDraw (applyMove e b c).boards (applyMove e b c).meta
        (applyMove e b c).winner
      else e.isDraw := rfl

theorem applyMove_activeBoard (e : Engine) (b c : Fin 9) :
    (applyMove e b c).activeBoard =
      match e.gameRules with
      | .standard =>
        if ((applyMove e b c).meta c).isSome || isFull ((applyMove e b c).boards c)
        then none else some (c.val : Int)
      | .freePlay => none := rfl

theorem applyMove_currentPlayer (e : Engine) (b c : Fin 9) :
    (applyMove e b c).currentPlayer = otherPlayer e.currentPlayer := rfl

theorem applyMove_gameRules (e : Engine) (b c : Fin 9) :
    (applyMove e b c).gameRules = e.gameRules := rfl

theorem applyMove_boards_self (e : Engine) (b c : Fin 9) :
    (applyMove e b c).boards b = setCellF (e.boards b) c (some e.currentPlayer) := by
  rw [applyMove_boards, if_pos rfl]

theorem applyMove_boards_ne {e : Engine} {b c i : Fin 9} (h : i ≠ b) :
    (applyMove e b c).boards i = e.boards i := by
  rw [applyMove_boards, if_neg h]

theorem applyMove_meta_ne {e : Engine} {b c i : Fin 9} (h : i ≠ b) :
    (applyMove e b c).meta i = e.meta i := by
  rw [applyMove_meta]
  split
  · show (if i = b then _ else e.meta i) = e.meta i
    rw [if_neg h]
  · rfl

/-- `makeMove` returning `.ok` either left the state unchanged (a guard
fired) or ran the full mutation `applyMove` on in-range indices with the
target cell empty and the target board undecided. -/
theorem makeMove_ok_cases {e e1 : Engine} {bi ci : Int}
    (h : makeMove e bi ci = .ok e1) :
    e1 = e ∨
      ∃ b c : Fin 9, toFin9 bi = some b ∧ toFin9 ci = some c ∧
        e.winner = none ∧ e.isDraw = false ∧
        e.boards b c = none ∧ e.meta b = none ∧ e1 = applyMove e b c := by
  unfold makeMove at h
  split at h
  · cases h
    exact Or.inl rfl
  · split at h
    · cases h
      exact Or.inl rfl
    · rename_i hg1 hg2
      rcases hbi : toFin9 bi with _ | b
      · rw [hbi] at h
        cases h
      · rw [hbi] at h
        dsimp only at h
        injection h with h
        subst h
        unfold movePhase2
        rcases hci : toFin9 ci with _ | c
        · exact Or.inl rfl
        · dsimp only
          by_cases hcell : ((e.boards b c).isSome || (e.meta b).isSome) = true
          · rw [if_pos hcell]
            exact Or.inl rfl
          · rw [if_neg hcell]
            obtain ⟨hcell1, hcell2⟩ := bor_false_split hcell
            obtain ⟨hw, hd⟩ := bor_false_split hg1
            exact Or.inr ⟨b, c, rfl, rfl, eq_none_of_isSome_false hw, hd,
              eq_none_of_isSome_false hcell1, eq_none_of_isSome_false hcell2, rfl⟩

/-! ## C1 — the pass move `makeMove(-1, -1)` -/

/-- C1: on a fresh standard match, the "pass" call `makeMove(-1, -1)` does
not switch the player: it reaches `smallBoards[-1]` (which is `undefined`)
and throws a `TypeError` on the `targetBoard.cells` access, contrary to the
spec and to the caller's comment that it "just switches players". -/
theorem passMove_throws :
    makeMove (freshEngine .standard) (-1) (-1) =
      .error "TypeError: cannot read properties of undefined (reading cells)" := by
  rfl

/-! ## C2 — invalid moves are no-ops -/

/-- C2: for in-range indices, whenever `checkValidMove` answers `false`,
`makeMove` returns the state unchanged — every sub-board cell, meta-board
outcome, `currentPlayer`, `activeBoard`, `winner`, `isDraw` and `lastMove`
are identical (the whole `Engine` record is returned as-is). -/
theorem makeMove_noop_of_invalid (e : Engine) (bi ci : Int)
    (hb0 : 0 ≤ bi) (hb9 : bi < 9) (hc0 : 0 ≤ ci) (hc9 : ci < 9)
    (hv : checkValidMove e bi ci = .ok false) :
    makeMove e bi ci = .ok e := by
  have hbi : toFin9 bi = some ⟨bi.toNat, by omega⟩ := by
    unfold toFin9
    rw [dif_pos ⟨hb0, hb9⟩]
  have hci : toFin9 ci = some ⟨ci.toNat, by omega⟩ := by
    unfold toFin9
    rw [dif_pos ⟨hc0, hc9⟩]
  obtain ⟨b, hbi2⟩ : ∃ b, toFin9 bi = some b := ⟨_, hbi⟩
  obtain ⟨c, hci2⟩ : ∃ c, toFin9 ci = some c := ⟨_, hci⟩
  unfold checkValidMove at hv
  unfold makeMove
  split at hv
  · rename_i hg1
    rw [if_pos hg1]
  · rename_i hg1
    rw [if_neg hg1]
    split at hv
    · rename_i hg2
      rw [if_pos hg2]
    · rename_i hg2
      rw [if_neg hg2]
      rw [hbi2] at hv ⊢
      rw [hci2] at hv
      dsimp only at hv ⊢
      unfold movePhase2
      rw [hci2]
      dsimp only
      split at hv
      · rename_i hcell
        rw [if_pos hcell]
      · simp at hv

/-- Witness for C2 at a concrete input: a fresh match already flagged as a
draw rejects the move (0, 0) and `makeMove` leaves the state unchanged. -/
theorem makeMove_noop_of_invalid_witness :
    makeMove { freshEngine .standard with isDraw := true } 0 0 =
      .ok { freshEngine .standard with isDraw := true } :=
  makeMove_noop_of_invalid _ 0 0 (by decide) (by decide) (by decide) (by decide) rfl

/-! ## C3 — snapshot immutability -/

/-- In the source, `getState` returns `{ boards: smallBoards.map(b =>
b.to2DArray()), boardWinners: metaBoard.cells, ... }`.  `to2DArray`
allocates fresh arrays of cell values and the scalar fields are copied, but
`boardWinners` is the meta-board's own `cells` array, stored without a
copy; `Board.setCell` mutates that array in place.  Reading a captured
snapshot when the engine has meanwhile moved to state `eNow` therefore
yields the captured value in every field except `boardWinners`, which
shows `eNow`'s meta cells. -/
def observeSnapshot (captured : GameState) (eNow : Engine) : GameState :=
  { captured with boardWinners := eNow.meta }

/-- A mid-game position: `X` holds cells 0 and 1 of sub-board 0 and is to
move, with no constraint on the active board. -/
def aliasEngine : Engine :=
  { freshEngine .standard with
    boards := fun i j => if i = 0 ∧ (j = 0 ∨ j = 1) then some .X else none }

/-- Counterexample to C3 as stated: from `aliasEngine`, the move (0, 2) is
valid and succeeds, and afterwards the snapshot captured before the move no
longer reads back equal to its captured value — its `boardWinners` entry 0
has become `X` through the shared array. -/
theorem snapshot_immutable_cex :
    makeMove aliasEngine 0 2 = .ok (movePhase2 aliasEngine 0 2) ∧
    checkValidMove aliasEngine 0 2 = .ok true ∧
    observeSnapshot (getState aliasEngine) (movePhase2 aliasEngine 0 2) ≠
      getState aliasEngine := by
  refine ⟨rfl, rfl, ?_⟩
  decide

/-- C3 amended: after a subsequent successful `makeMove`, the snapshot's
`boards` field still reads back its captured value (it was deep-copied by
`to2DArray`), but its `boardWinners` field reads back the engine's
post-move meta-board, because `getState` aliases `metaBoard.cells`; the
snapshot as a whole equals its captured value exactly when the move left
the meta-board unchanged (i.e. decided no sub-board). -/
theorem snapshot_alias_characterization (e : Engine) (bi ci : Int) (e1 : Engine)
    (hmv : makeMove e bi ci = .ok e1) :
    (observeSnapshot (getState e) e1).boards = (getState e).boards ∧
    (observeSnapshot (getState e) e1).boardWinners = e1.meta ∧
    (observeSnapshot (getState e) e1 = getState e ↔ e1.meta = e.meta) := by
  refine ⟨rfl, rfl, ?_, ?_⟩
  · intro h
    exact congrArg GameState.boardWinners h
  · intro h
    show ({ getState e with boardWinners := e1.meta } : GameState) = getState e
    rw [show e1.meta = (getState e).boardWinners from h]

/-- Witness for the amended C3 at a concrete input: the first move (0, 0)
of a fresh match decides no sub-board, and the captured fresh snapshot
still reads back unchanged. -/
theorem snapshot_alias_characterization_witness :
    (observeSnapshot (getState (freshEngine .standard))
        (movePhase2 (freshEngine .standard) 0 0)).boards =
      (getState (freshEngine .standard)).boards ∧
    (observeSnapshot (getState (freshEngine .standard))
        (movePhase2 (freshEngine .standard) 0 0)).boardWinners =
      (movePhase2 (freshEngine .standard) 0 0).meta ∧
    (observeSnapshot (getState (freshEngine .standard))
        (movePhase2 (freshEngine .standard) 0 0) =
        getState (freshEngine .standard) ↔
      (movePhase2 (freshEngine .standard) 0 0).meta =
        (freshEngine .standard).meta) :=
  snapshot_alias_characterization (freshEngine .standard) 0 0 _ rfl

/-! ## C4 — snapshot round-trip -/

theorem createGameState_getState (e : Engine) :
    createGameState (some (getState e)) = e := by
  refine Engine.ext ?_ ?_ rfl rfl rfl rfl rfl rfl rfl rfl ?_
  · funext i j
    show (match e.boards i (idx33 (cellRow j) (cellCol j)) with
          | some p => some p
          | none => none) = e.boards i j
    rw [idx33_cellRow_cellCol]
    cases e.boards i j <;> rfl
  · funext i
    show (match e.meta i with | some p => some p | none => none) = e.meta i
    cases e.meta i <;> rfl
  · show (match e.onlineStatus with | some r => some r | none => none) = e.onlineStatus
    cases e.onlineStatus <;> rfl

/-- C4: rebuilding an engine from its own snapshot via
`createGameState(getState())` yields a behaviorally identical engine:
`checkValidMove` agrees on every pair of indices, and any identical
sequence of `makeMove` calls applied to both yields equal `getState`
results. -/
theorem roundtrip_behavioral (e : Engine) (h : Reachable e) :
    (∀ bi ci : Int,
      checkValidMove (createGameState (some (getState e))) bi ci =
        checkValidMove e bi ci) ∧
    (∀ ms : List (Int × Int),
      (runMoves (createGameState (some (getState e))) ms).map getState =
        (runMoves e ms).map getState) := by
  rw [createGameState_getState]
  exact ⟨fun _ _ => rfl, fun _ => rfl⟩

/-- Witness for C4 at a concrete input: the fresh match, the probe move
(0, 4) and the move sequence [(0, 4)]. -/
theorem roundtrip_behavioral_witness :
    checkValidMove (createGameState (some (getState (freshEngine .standard)))) 0 4 =
      checkValidMove (freshEngine .standard) 0 4 ∧
    (runMoves (createGameState (some (getState (freshEngine .standard)))) [(0, 4)]).map getState =
      (runMoves (freshEngine .standard) [(0, 4)]).map getState :=
  ⟨(roundtrip_behavioral (freshEngine .standard) (.fresh .standard)).1 0 4,
   (roundtrip_behavioral (freshEngine .standard) (.fresh .standard)).2 [(0, 4)]⟩

/-! ## Success-path characterization of `makeMove` -/

theorem movePhase2_some {e : Engine} {b : Fin 9} {ci : Int} {c : Fin 9}
    (hc : toFin9 ci = some c) :
    movePhase2 e b ci =
      if ((e.boards b c).isSome || (e.meta b).isSome) = true then e
      else applyMove e b c := by
  unfold movePhase2
  rw [hc]

/-- Fields extracted from a `checkValidMove` call that answered `true`. -/
theorem checkValidMove_true {e : Engine} {bi ci : Int}
    (hv : checkValidMove e bi ci = .ok true) :
    ∃ b c : Fin 9, toFin9 bi = some b ∧ toFin9 ci = some c ∧
      e.winner = none ∧ e.isDraw = false ∧
      ¬(e.gameRules = .standard ∧ e.activeBoard ≠ none ∧ e.activeBoard ≠ some bi) ∧
      e.boards b c = none ∧ e.meta b = none := by
  unfold checkValidMove at hv
  split at hv
  · simp at hv
  · rename_i hg1
    split at hv
    · simp at hv
    · rename_i hg2
      rcases hbi : toFin9 bi with _ | b
      · rw [hbi] at hv
        cases hv
      · rw [hbi] at hv
        dsimp only at hv
        rcases hci : toFin9 ci with _ | c
        · rw [hci] at hv
          simp at hv
        · rw [hci] at hv
          dsimp only at hv
          by_cases hcell : ((e.boards b c).isSome || (e.meta b).isSome) = true
          · rw [if_pos hcell] at hv
            simp at hv
          · obtain ⟨hcell1, hcell2⟩ := bor_false_split hcell
            obtain ⟨hw, hd⟩ := bor_false_split hg1
            exact ⟨b, c, rfl, rfl, eq_none_of_isSome_false hw, hd, hg2,
              eq_none_of_isSome_false hcell1, eq_none_of_isSome_false hcell2⟩

/-- When `checkValidMove` answers `true`, `makeMove` takes the full
mutation path. -/
theorem makeMove_of_valid {e : Engine} {bi ci : Int} {b c : Fin 9}
    (hb : toFin9 bi = some b) (hc : toFin9 ci = some c)
    (hv : checkValidMove e bi ci = .ok true) :
    makeMove e bi ci = .ok (applyMove e b c) := by
  obtain ⟨b2, c2, hb2, hc2, hw, hd, hg2, hcell, hmeta⟩ := checkValidMove_true hv
  rw [hb] at hb2
  rw [hc] at hc2
  injection hb2 with hb2
  injection hc2 with hc2
  subst hb2
  subst hc2
  unfold makeMove
  rw [if_neg (by rw [hw, hd]; simp), if_neg hg2, hb]
  show Except.ok (movePhase2 e b ci) = Except.ok (applyMove e b c)
  rw [movePhase2_some hc, if_neg (by rw [hcell, hmeta]; simp)]

/-! ## C5 — standard-rules routing -/

/-- C5: after a successful `makeMove` at cell index `ci`, under standard
rules the new `activeBoard` is `ci` when sub-board `ci` is neither won on
the meta-board nor full after the move, and `null` when that sub-board is
decided; under free-play the new `activeBoard` is always `null`. -/
theorem routing_after_move (e : Engine) (bi ci : Int) (c : Fin 9)
    (hc : toFin9 ci = some c) (e1 : Engine)
    (hmv : makeMove e bi ci = .ok e1)
    (hv : checkValidMove e bi ci = .ok true) :
    (e.gameRules = .standard →
      e1.activeBoard =
        if (e1.meta c).isSome || isFull (e1.boards c) then none else some ci) ∧
    (e.gameRules = .freePlay → e1.activeBoard = none) := by
  obtain ⟨b, c2, hb, hc2, -⟩ := checkValidMove_true hv
  rw [hc] at hc2
  injection hc2 with hc2
  subst hc2
  rw [makeMove_of_valid hb hc hv] at hmv
  injection hmv with hmv
  subst hmv
  rw [applyMove_activeBoard]
  constructor
  · intro hr
    rw [hr]
    rw [toFin9_eq_some hc]
  · intro hr
    rw [hr]

/-- Witness for C5 at a concrete input: the first move (0, 4) of a fresh
standard match routes the opponent to sub-board 4. -/
theorem routing_after_move_witness :
    (freshEngine .standard).gameRules = .standard ∧
    (movePhase2 (freshEngine .standard) 0 4).activeBoard =
      if ((movePhase2 (freshEngine .standard) 0 4).meta 4).isSome ||
          isFull ((movePhase2 (freshEngine .standard) 0 4).boards 4)
      then none else some 4 :=
  ⟨rfl,
    (routing_after_move (freshEngine .standard) 0 4 4 (by decide)
      (movePhase2 (freshEngine .standard) 0 4) rfl rfl).1 rfl⟩

/-! ## The reachable-state invariant -/

/-- Invariant maintained by `makeMove` along reachable states: the stored
`isDraw` flag is the recomputed draw condition while the game has no
winner, a winner forces `isDraw = false`, and `activeBoard` is `null` or
points at an undecided, non-full sub-board. -/
def EngineInv (e : Engine) : Prop :=
  (e.winner = none → e.isDraw = checkGameDraw e.boards e.meta e.winner) ∧
  (e.winner ≠ none → e.isDraw = false) ∧
  (e.activeBoard = none ∨
    ∃ i : Fin 9, e.activeBoard = some (i.val : Int) ∧
      e.meta i = none ∧ isFull (e.boards i) = false)

theorem inv_fresh (rules : GameRules) : EngineInv (freshEngine rules) := by
  refine ⟨?_, ?_, Or.inl rfl⟩
  · intro _
    rfl
  · intro h
    exact absurd rfl h

theorem inv_step {e e1 : Engine} {bi ci : Int}
    (h : makeMove e bi ci = .ok e1) (hi : EngineInv e) : EngineInv e1 := by
  rcases makeMove_ok_cases h with he | ⟨b, c, hb, hc, hw, hd, hcell, hmeta, he⟩
  · rw [he]
    exact hi
  · subst he
    refine ⟨?_, ?_, ?_⟩
    · intro hw1
      rw [applyMove_isDraw, if_pos hw1]
    · intro hw1
      rw [applyMove_isDraw, if_neg (fun hh => hw1 hh), hd]
    · rw [applyMove_activeBoard]
      cases hr : e.gameRules with
      | freePlay => exact Or.inl rfl
      | standard =>
        by_cases hcond :
            (((applyMove e b c).meta c).isSome ||
              isFull ((applyMove e b c).boards c)) = true
        · rw [if_pos hcond]
          exact Or.inl rfl
        · rw [if_neg hcond]
          obtain ⟨h1, h2⟩ := bor_false_split hcond
          exact Or.inr ⟨c, rfl, eq_none_of_isSome_false h1, h2⟩

theorem inv_reachable {e : Engine} (h : Reachable e) : EngineInv e := by
  induction h with
  | fresh rules => exact inv_fresh rules
  | step bi ci hr hmv ih => exact inv_step hmv ih

/-! ## C7 — winner and draw are mutually exclusive -/

/-- C7: in every state reachable by moves from a fresh match, a non-null
winner forces `isDraw = false`, and `isDraw = true` forces a null
winner. -/
theorem terminal_exclusive (e : Engine) (h : Reachable e) :
    (e.winner ≠ none → e.isDraw = false) ∧ (e.isDraw = true → e.winner = none) := by
  have hi := inv_reachable h
  refine ⟨hi.2.1, ?_⟩
  intro hd
  by_contra hw
  rw [hi.2.1 hw] at hd
  cases hd

/-- Witness for C7 at a concrete state: the fresh standard match. -/
theorem terminal_exclusive_witness :
    ((freshEngine .standard).winner ≠ none →
      (freshEngine .standard).isDraw = false) ∧
    ((freshEngine .standard).isDraw = true →
      (freshEngine .standard).winner = none) :=
  terminal_exclusive (freshEngine .standard) (.fresh .standard)

/-! ## C8 — decided sub-boards never change again -/

theorem decided_step {e e1 : Engine} {bi ci : Int}
    (h : makeMove e bi ci = .ok e1) (i : Fin 9)
    (hd : e.meta i ≠ none ∨ isFull (e.boards i) = true) :
    e1.meta i = e.meta i ∧ e1.boards i = e.boards i := by
  rcases makeMove_ok_cases h with he | ⟨b, c, hb, hc, hw, hdr, hcell, hmeta, he⟩
  · rw [he]
    exact ⟨rfl, rfl⟩
  · subst he
    have hib : i ≠ b := by
      rintro rfl
      rcases hd with hd | hd
      · exact hd hmeta
      · exact (of_decide_eq_true hd c) hcell
    exact ⟨applyMove_meta_ne hib, applyMove_boards_ne hib⟩

theorem decided_frame_aux (i : Fin 9) (ms : List (Int × Int)) :
    ∀ e e1 : Engine, (e.meta i ≠ none ∨ isFull (e.boards i) = true) →
      runMoves e ms = .ok e1 →
      e1.meta i = e.meta i ∧ e1.boards i = e.boards i := by
  induction ms with
  | nil =>
    intro e e1 hd h
    unfold runMoves at h
    injection h with h
    rw [h]
    exact ⟨rfl, rfl⟩
  | cons m ms ih =>
    intro e e1 hd h
    obtain ⟨bi, ci⟩ := m
    unfold runMoves at h
    rcases hstep : makeMove e bi ci with s | e2
    · rw [hstep] at h
      cases h
    · rw [hstep] at h
      obtain ⟨hm1, hb1⟩ := decided_step hstep i hd
      have hd2 : e2.meta i ≠ none ∨ isFull (e2.boards i) = true := by
        rw [hm1, hb1]
        exact hd
      obtain ⟨h1, h2⟩ := ih e2 e1 hd2 h
      exact ⟨h1.trans hm1, h2.trans hb1⟩

/-- C8: once sub-board `i` is decided (its meta-board entry is set, or it
is full), running any further sequence of `makeMove` calls with in-range
arguments leaves its meta-board entry and all of its cells unchanged. -/
theorem decided_permanent (e : Engine) (i : Fin 9)
    (hd : e.meta i ≠ none ∨ isFull (e.boards i) = true)
    (ms : List (Int × Int))
    (hms : ∀ m ∈ ms, 0 ≤ m.1 ∧ m.1 < 9 ∧ 0 ≤ m.2 ∧ m.2 < 9)
    (e1 : Engine) (h : runMoves e ms = .ok e1) :
    e1.meta i = e.meta i ∧ e1.boards i = e.boards i :=
  decided_frame_aux i ms e e1 hd h

/-- A state with sub-board 0 already won by `X`, used as the witness
state for C8. -/
def wonBoardEngine : Engine :=
  { freshEngine .standard with meta := fun i => if i = 0 then some .X else none }

/-- Witness for C8 at a concrete input: with sub-board 0 already won,
playing (1, 1) changes neither its meta entry nor its cells. -/
theorem decided_permanent_witness :
    (movePhase2 wonBoardEngine 1 1).meta 0 = wonBoardEngine.meta 0 ∧
    (movePhase2 wonBoardEngine 1 1).boards 0 = wonBoardEngine.boards 0 :=
  decided_permanent wonBoardEngine 0 (Or.inl (by decide)) [(1, 1)]
    (by decide) (movePhase2 wonBoardEngine 1 1) rfl

/-! ## The move-search AI (`CpuPlayer.ts`)

The AI receives the state as a `BoardState`: the 3D board array produced by
`smallBoards.map(b => b.to2DArray())`, the meta-board cells, the current
player, the active board and the rules.  All indices the AI produces are in
0–8 by construction, so AI moves carry `Fin 9` indices. -/

structure BoardState where
  smallBoards : Fin 9 → Fin 3 → Fin 3 → Cell
  boardWinners : Fin 9 → Cell
  currentPlayer : Player
  activeBoard : Option (Fin 9)
  gameRules : GameRules
deriving DecidableEq

/-- The AI's `Move` record `{ boardIndex, cellIndex }` (its optional
`score` field is never assigned in the source). -/
structure CMove where
  boardIndex : Fin 9
  cellIndex : Fin 9
deriving DecidableEq, Repr

/-- `getCpuMove` converts the engine state for the CPU player.  The engine
only ever stores `null` or an in-range index in `activeBoard` (see the
reachable-state invariant), and `Option.bind toFin9` maps exactly those
values into the typed index. -/
def toBoardState (e : Engine) : BoardState where
  smallBoards := fun i => to2DArray (e.boards i)
  boardWinners := e.meta
  currentPlayer := e.currentPlayer
  activeBoard := e.activeBoard.bind toFin9
  gameRules := e.gameRules

/-- `checkWinOnBoard`'s coordinate win patterns (rows, columns,
diagonals). -/
def winCoordPatterns : List ((Fin 3 × Fin 3) × (Fin 3 × Fin 3) × (Fin 3 × Fin 3)) :=
  [((0, 0), (0, 1), (0, 2)), ((1, 0), (1, 1), (1, 2)), ((2, 0), (2, 1), (2, 2)),
   ((0, 0), (1, 0), (2, 0)), ((0, 1), (1, 1), (2, 1)), ((0, 2), (1, 2), (2, 2)),
   ((0, 0), (1, 1), (2, 2)), ((0, 2), (1, 1), (2, 0))]

/-- `checkWinOnBoard(board, player)`. -/
def checkWinOnBoard (board : Fin 3 → Fin 3 → Cell) (p : Player) : Bool :=
  winCoordPatterns.any fun pat =>
    decide (board pat.1.1 pat.1.2 = some p) &&
    decide (board pat.2.1.1 pat.2.1.2 = some p) &&
    decide (board pat.2.2.1 pat.2.2.2 = some p)

/-- `isBoardFull(board)`. -/
def isBoardFull (board : Fin 3 → Fin 3 → Cell) : Bool :=
  decide (∀ r c : Fin 3, board r c ≠ none)

/-- Simulating a move on a (deep-copied) 2D board: `boardCopy[row][col] =
value`. -/
def setBoardCell (board : Fin 3 → Fin 3 → Cell) (r c : Fin 3) (v : Cell) :
    Fin 3 → Fin 3 → Cell :=
  fun r1 c1 => if r1 = r ∧ c1 = c then v else board r1 c1

/-- The boards with no recorded winner, in ascending index order (the
`!boardWinners[i]` scan of `getValidMoves`). -/
def unwonBoards (bw : Fin 9 → Cell) : List (Fin 9) :=
  (List.finRange 9).filter fun i => bw i = none

/-- The inner loop of `getValidMoves`: the empty cells of one board, rows
outer, columns inner, so cell indices ascend. -/
def boardMoves (s : BoardState) (i : Fin 9) : List CMove :=
  (List.finRange 3).flatMap fun r =>
    (List.finRange 3).filterMap fun c =>
      if s.smallBoards i r c = none then some ⟨i, idx33 r c⟩ else none

/-- `getValidMoves(state)`. -/
def getValidMoves (s : BoardState) : List CMove :=
  let playableBoards : List (Fin 9) :=
    match s.activeBoard, s.gameRules with
    | some a, .standard =>
      if s.boardWinners a = none then [a] else unwonBoards s.boardWinners
    | _, _ => unwonBoards s.boardWinners
  playableBoards.flatMap (boardMoves s)

/-- `findWinningMove(state, validMoves)`: the first valid move that
completes a 3-in-a-row for the current player on its small board. -/
def findWinningMove (s : BoardState) (validMoves : List CMove) : Option CMove :=
  validMoves.find? fun m =>
    let board := s.smallBoards m.boardIndex
    let r := cellRow m.cellIndex
    let c := cellCol m.cellIndex
    if board r c ≠ none then false
    else checkWinOnBoard (setBoardCell board r c (some s.currentPlayer)) s.currentPlayer

/-- The inner double loop of `findBlockingMove`: scan the cells of one
board (rows outer, columns inner) and return the first empty cell where the
opponent would complete a 3-in-a-row, labelled with the board's index. -/
def blockScanBoard (board : Fin 3 → Fin 3 → Cell) (opponent : Player)
    (bIdx : Fin 9) : Option CMove :=
  (List.finRange 3).findSome? fun r =>
    (List.finRange 3).findSome? fun c =>
      if board r c ≠ none then none
      else if checkWinOnBoard (setBoardCell board r c (some opponent)) opponent then
        some (⟨bIdx, idx33 r c⟩ : CMove)
      else none

/-- `findBlockingMove(state, validMoves)`: scan the valid moves; on the
first move whose board contains a cell where the opponent would complete a
3-in-a-row, return that cell (not necessarily the move's own cell). -/
def findBlockingMove (s : BoardState) (validMoves : List CMove) : Option CMove :=
  let opponent := otherPlayer s.currentPlayer
  validMoves.findSome? fun m =>
    blockScanBoard (s.smallBoards m.boardIndex) opponent m.boardIndex

/-- `findGameWinningMove(state, validMoves)`: the first valid move that
wins its small board and thereby completes a meta-board 3-in-a-row.  The
source re-lists the same 8 patterns inline; this is `winPatterns`. -/
def findGameWinningMove (s : BoardState) (validMoves : List CMove) : Option CMove :=
  validMoves.find? fun m =>
    if s.boardWinners m.boardIndex ≠ none then false
    else
      let r := cellRow m.cellIndex
      let c := cellCol m.cellIndex
      let boardCopy := setBoardCell (s.smallBoards m.boardIndex) r c (some s.currentPlayer)
      if !(checkWinOnBoard boardCopy s.currentPlayer) then false
      else
        let metaBoardCopy := setCellF s.boardWinners m.boardIndex (some s.currentPlayer)
        winPatterns.any fun pat =>
          decide (pat.1 = m.boardIndex ∨ pat.2.1 = m.boardIndex ∨ pat.2.2 = m.boardIndex) &&
          decide (([metaBoardCopy pat.1, metaBoardCopy pat.2.1,
            metaBoardCopy pat.2.2].count (some s.currentPlayer)) = 3)

/-- The inner double loop of `findGameBlockingMove`: can the opponent win
this board with one move? -/
def canOpponentWinBoard (board : Fin 3 → Fin 3 → Cell) (opponent : Player) : Bool :=
  (List.finRange 3).any fun r =>
    (List.finRange 3).any fun c =>
      if board r c ≠ none then false
      else checkWinOnBoard (setBoardCell board r c (some opponent)) opponent

/-- The `potentialBlockingBoards` set of `findGameBlockingMove`: the
undecided third boards of meta-lines where the opponent holds two.  The
source stores them in a `Set`, of which only membership is observed, so a
list with possible duplicates is an equivalent model. -/
def potentialBlockingBoards (bw : Fin 9 → Cell) (opponent : Player) : List (Fin 9) :=
  winPatterns.flatMap fun pat =>
    let values := [bw pat.1, bw pat.2.1, bw pat.2.2]
    if values.count (some opponent) = 2 ∧ values.count none = 1 then
      (if bw pat.1 = none then [pat.1] else []) ++
      (if bw pat.2.1 = none then [pat.2.1] else []) ++
      (if bw pat.2.2 = none then [pat.2.2] else [])
    else []

/-- `findGameBlockingMove(state, validMoves)`. -/
def findGameBlockingMove (s : BoardState) (validMoves : List CMove) : Option CMove :=
  let opponent := otherPlayer s.currentPlayer
  validMoves.find? fun m =>
    let r := cellRow m.cellIndex
    let c := cellCol m.cellIndex
    if m.boardIndex ∈ potentialBlockingBoards s.boardWinners opponent then
      let boardCopy := setBoardCell (s.smallBoards m.boardIndex) r c (some s.currentPlayer)
      !(canOpponentWinBoard boardCopy opponent)
    else false

/-- The shared priority order: center, corners, edges. -/
def strategicCells : List (Fin 9) := [4, 0, 2, 6, 8, 1, 3, 5, 7]

def boardPriority : List (Fin 9) := [4, 0, 2, 6, 8, 1, 3, 5, 7]

/-- `findStrategicMove(state, validMoves)`. -/
def findStrategicMove (s : BoardState) (validMoves : List CMove) : Option CMove :=
  let centerBoardMoves := validMoves.filter fun m => m.boardIndex = 4
  let fromCenter : Option CMove :=
    if centerBoardMoves.length > 0 then
      strategicCells.findSome? fun ci => centerBoardMoves.find? fun m => m.cellIndex = ci
    else none
  match fromCenter with
  | some m => some m
  | none =>
    let cornerBoardMoves := validMoves.filter fun m =>
      m.boardIndex ∈ ([0, 2, 6, 8] : List (Fin 9))
    let fromCorners : Option CMove :=
      if cornerBoardMoves.length > 0 then
        match cornerBoardMoves.find? fun m => m.cellIndex = 4 with
        | some m => some m
        | none =>
          strategicCells.findSome? fun ci => cornerBoardMoves.find? fun m => m.cellIndex = ci
      else none
    match fromCorners with
    | some m => some m
    | none =>
      boardPriority.findSome? fun bi =>
        let bMoves := validMoves.filter fun m => m.boardIndex = bi
        if bMoves.length > 0 then
          strategicCells.findSome? fun ci => bMoves.find? fun m => m.cellIndex = ci
        else none

/-- `findStrategicWinningMove(state, validMoves)`: a small-board-winning
move, preferring center then corner then edge boards, falling back to
`findWinningMove`. -/
def findStrategicWinningMove (s : BoardState) (validMoves : List CMove) : Option CMove :=
  match boardPriority.findSome? (fun bi =>
    let bMoves := validMoves.filter fun m => m.boardIndex = bi
    bMoves.find? fun m =>
      let board := s.smallBoards m.boardIndex
      let r := cellRow m.cellIndex
      let c := cellCol m.cellIndex
      if board r c ≠ none then false
      else checkWinOnBoard (setBoardCell board r c (some s.currentPlayer)) s.currentPlayer) with
  | some m => some m
  | none => findWinningMove s validMoves

/-- `simulateMove(state, move)`: deep-copy, place the mark, recompute the
board winner, compute the next active board, switch the player. -/
def simulateMove (s : BoardState) (m : CMove) : BoardState :=
  let r := cellRow m.cellIndex
  let c := cellCol m.cellIndex
  let newSmallBoards : Fin 9 → Fin 3 → Fin 3 → Cell :=
    fun i => if i = m.boardIndex
      then setBoardCell (s.smallBoards m.boardIndex) r c (some s.currentPlayer)
      else s.smallBoards i
  let newBoardWinners :=
    if checkWinOnBoard (newSmallBoards m.boardIndex) s.currentPlayer
    then setCellF s.boardWinners m.boardIndex (some s.currentPlayer)
    else s.boardWinners
  let newActiveBoard : Option (Fin 9) :=
    match s.gameRules with
    | .standard =>
      if newBoardWinners m.cellIndex ≠ none ∨ isBoardFull (newSmallBoards m.cellIndex)
      then none else some m.cellIndex
    | .freePlay => none
  { smallBoards := newSmallBoards
    boardWinners := newBoardWinners
    currentPlayer := otherPlayer s.currentPlayer
    activeBoard := newActiveBoard
    gameRules := s.gameRules }

/-- The cells of a meta-board win pattern. -/
def patternCells (bw : Fin 9 → Cell) (pat : Fin 9 × Fin 9 × Fin 9) : List Cell :=
  [bw pat.1, bw pat.2.1, bw pat.2.2]

/-- `boardValueWeights`: the JS weights 3.0 / 2.0 / 1.0 always multiply
integer scores, so their contributions are exact integers and ℤ models the
arithmetic exactly. -/
def boardValueWeights (i : Fin 9) : Int :=
  if i = 4 then 3
  else if i = 0 ∨ i = 2 ∨ i = 6 ∨ i = 8 then 2
  else 1

/-- The score adjustment of the meta-board pattern loop of `evaluateBoard`
for a line that is not yet complete (the `playerCount === 3` /
`opponentCount === 3` early returns are handled by `metaScan`). -/
def metaLineDelta (bw : Fin 9 → Cell) (p opponent : Player)
    (pat : Fin 9 × Fin 9 × Fin 9) : Int :=
  let values := patternCells bw pat
  let playerCount := values.count (some p)
  let opponentCount := values.count (some opponent)
  let hasCenter : Bool := decide (pat.1 = 4 ∨ pat.2.1 = 4 ∨ pat.2.2 = 4)
  if playerCount = 2 ∧ opponentCount = 0 then 500 + (if hasCenter then 100 else 0)
  else if opponentCount = 2 ∧ playerCount = 0 then -700 - (if hasCenter then 200 else 0)
  else if playerCount = 1 ∧ opponentCount = 0 then 50 + (if hasCenter then 25 else 0)
  else if opponentCount = 1 ∧ playerCount = 0 then -40 - (if hasCenter then 20 else 0)
  else 0

/-- The meta-board pattern loop of `evaluateBoard`, with the in-loop
`return 10000` / `return -10000` modelled as `.error`. -/
def metaScan (bw : Fin 9 → Cell) (p opponent : Player) :
    List (Fin 9 × Fin 9 × Fin 9) → Int → Except Int Int
  | [], acc => .ok acc
  | pat :: ps, acc =>
    if (patternCells bw pat).count (some p) = 3 then .error 10000
    else if (patternCells bw pat).count (some opponent) = 3 then .error (-10000)
    else metaScan bw p opponent ps (acc + metaLineDelta bw p opponent pat)

/-- The cells of a small-board win pattern, addressed through the
`Math.floor(a / 3)` / `a % 3` coordinate conversion of the source. -/
def subPatternCells (board : Fin 3 → Fin 3 → Cell) (pat : Fin 9 × Fin 9 × Fin 9) :
    List Cell :=
  [board (cellRow pat.1) (cellCol pat.1),
   board (cellRow pat.2.1) (cellCol pat.2.1),
   board (cellRow pat.2.2) (cellCol pat.2.2)]

/-- The per-pattern `boardScore` adjustment of `evaluateBoard`'s small
board loop. -/
def subLineDelta (board : Fin 3 → Fin 3 → Cell) (p opponent : Player)
    (pat : Fin 9 × Fin 9 × Fin 9) : Int :=
  let values := subPatternCells board pat
  let playerCount := values.count (some p)
  let opponentCount := values.count (some opponent)
  if playerCount = 2 ∧ opponentCount = 0 then 10
  else if opponentCount = 2 ∧ playerCount = 0 then -12
  else if playerCount = 1 ∧ opponentCount = 0 then 3
  else if opponentCount = 1 ∧ playerCount = 0 then -2
  else 0

/-- One iteration of `evaluateBoard`'s per-board loop: a decided board
contributes ±100×weight; an undecided board contributes its summed line
scores times its weight plus ±5×weight for its center cell. -/
def boardContrib (s : BoardState) (opponent : Player) (i : Fin 9) : Int :=
  let boardWeight := boardValueWeights i
  match s.boardWinners i with
  | some q => if q = s.currentPlayer then 100 * boardWeight else -100 * boardWeight
  | none =>
    let board := s.smallBoards i
    let boardScore :=
      winPatterns.foldl (fun acc pat => acc + subLineDelta board s.currentPlayer opponent pat) 0
    boardScore * boardWeight +
      (if board 1 1 = some s.currentPlayer then 5 * boardWeight
       else if board 1 1 = some opponent then -5 * boardWeight
       else 0)

/-- `evaluateBoard(state)`. -/
def evaluateBoard (s : BoardState) : Int :=
  let opponent := otherPlayer s.currentPlayer
  match metaScan s.boardWinners s.currentPlayer opponent winPatterns 0 with
  | .error v => v
  | .ok metaScore =>
    let score1 := (List.finRange 9).foldl (fun acc i => acc + boardContrib s opponent i) metaScore
    let centerOfCenter := s.smallBoards 4 1 1
    score1 +
      (if centerOfCenter = some s.currentPlayer then 15
       else if centerOfCenter = some opponent then -15
       else 0)

/-- JS numbers as used by the minimax driver: an integer score or
±`Infinity`. -/
inductive XInt where
  | negInf
  | fin (n : Int)
  | posInf
deriving DecidableEq, Repr

def XInt.le : XInt → XInt → Bool
  | .negInf, _ => true
  | _, .posInf => true
  | .fin a, .fin b => decide (a ≤ b)
  | .posInf, .negInf => false
  | .posInf, .fin _ => false
  | .fin _, .negInf => false

def XInt.lt (x y : XInt) : Bool := !(XInt.le y x)

/-- `Math.max`. -/
def XInt.max (x y : XInt) : XInt := if XInt.le x y then y else x

/-- `Math.min`. -/
def XInt.min (x y : XInt) : XInt := if XInt.le x y then x else y

/-- The maximizing loop of `minimax`, with the alpha-beta `break`. -/
def maxLoop (next : BoardState → XInt → XInt → XInt) (s : BoardState) :
    List CMove → XInt → XInt → XInt → XInt
  | [], maxScore, _, _ => maxScore
  | m :: ms, maxScore, alpha, beta =>
    let score := next (simulateMove s m) alpha beta
    let maxScore1 := XInt.max maxScore score
    let alpha1 := XInt.max alpha score
    if XInt.le beta alpha1 then maxScore1
    else maxLoop next s ms maxScore1 alpha1 beta

/-- The minimizing loop of `minimax`, with the alpha-beta `break`. -/
def minLoop (next : BoardState → XInt → XInt → XInt) (s : BoardState) :
    List CMove → XInt → XInt → XInt → XInt
  | [], minScore, _, _ => minScore
  | m :: ms, minScore, alpha, beta =>
    let score := next (simulateMove s m) alpha beta
    let minScore1 := XInt.min minScore score
    let beta1 := XInt.min beta score
    if XInt.le beta1 alpha then minScore1
    else minLoop next s ms minScore1 alpha beta1

/-- `minimax(state, depth, isMaximizing, alpha, beta)`. -/
def minimax : Nat → BoardState → Bool → XInt → XInt → XInt
  | 0, s, _, _, _ => .fin (evaluateBoard s)
  | d + 1, s, isMaximizing, alpha, beta =>
    let validMoves := getValidMoves s
    if validMoves.isEmpty then .fin (evaluateBoard s)
    else if isMaximizing then
      maxLoop (fun s1 a b => minimax d s1 false a b) s validMoves .negInf alpha beta
    else
      minLoop (fun s1 a b => minimax d s1 true a b) s validMoves .posInf alpha beta

/-- The loop of `findMinimaxMove`: track the best score (strictly better
scores replace, so ties keep the earliest move). -/
def fmLoop (s : BoardState) (depth : Nat) :
    List CMove → XInt → Option CMove → Option CMove
  | [], _, bestMove => bestMove
  | m :: ms, bestScore, bestMove =>
    let score := minimax (depth - 1) (simulateMove s m) false .negInf .posInf
    if XInt.lt bestScore score then fmLoop s depth ms score (some m)
    else fmLoop s depth ms bestScore bestMove

/-- `findMinimaxMove(state, validMoves, depth)`. -/
def findMinimaxMove (s : BoardState) (validMoves : List CMove) (depth : Nat) :
    Option CMove :=
  if validMoves.isEmpty then none
  else fmLoop s depth validMoves .negInf none

/-- `getExpertMove(state)`: the strong-difficulty cascade.  Its only
randomness is the final `Math.random()` fallback, modelled by the `pick`
parameter selecting index `pick % length`. -/
def getExpertMove (s : BoardState) (pick : Nat) : Option CMove :=
  let validMoves := getValidMoves s
  if validMoves.isEmpty then none
  else
    match findGameWinningMove s validMoves with
    | some m => some m
    | none =>
      match findGameBlockingMove s validMoves with
      | some m => some m
      | none =>
        match findStrategicWinningMove s validMoves with
        | some m => some m
        | none =>
          match findBlockingMove s validMoves with
          | some m => some m
          | none =>
            match findMinimaxMove s validMoves 4 with
            | some m => some m
            | none =>
              match findStrategicMove s validMoves with
              | some m => some m
              | none => validMoves[pick % validMoves.length]?

/-! ## C10 — the active board always points at a playable sub-board -/

theorem mem_unwonBoards {bw : Fin 9 → Cell} {i : Fin 9} (h : bw i = none) :
    i ∈ unwonBoards bw := by
  unfold unwonBoards
  rw [List.mem_filter]
  exact ⟨List.mem_finRange i, by simp [h]⟩

theorem boardMoves_mem {s : BoardState} {i j : Fin 9}
    (h : s.smallBoards i (cellRow j) (cellCol j) = none) :
    (⟨i, j⟩ : CMove) ∈ boardMoves s i := by
  unfold boardMoves
  rw [List.mem_flatMap]
  refine ⟨cellRow j, List.mem_finRange _, ?_⟩
  rw [List.mem_filterMap]
  refine ⟨cellCol j, List.mem_finRange _, ?_⟩
  rw [if_pos h, idx33_cellRow_cellCol]

theorem exists_empty_of_not_full {cells : Fin 9 → Cell}
    (h : isFull cells = false) : ∃ j, cells j = none := by
  unfold isFull at h
  rw [decide_eq_false_iff_not] at h
  push_neg at h
  exact h

/-- An undecided, non-full board contributes a valid move through
`getValidMoves` whenever it is among the playable boards. -/
theorem getValidMoves_ne_nil_of_playable {e : Engine} {i : Fin 9}
    (hmeta : e.meta i = none) (hfull : isFull (e.boards i) = false)
    (hplay : ∀ pb, (match (toBoardState e).activeBoard, (toBoardState e).gameRules with
      | some a, GameRules.standard =>
        if (toBoardState e).boardWinners a = none then [a]
        else unwonBoards (toBoardState e).boardWinners
      | _, _ => unwonBoards (toBoardState e).boardWinners) = pb → i ∈ pb) :
    getValidMoves (toBoardState e) ≠ [] := by
  obtain ⟨j, hj⟩ := exists_empty_of_not_full hfull
  have hcell : (toBoardState e).smallBoards i (cellRow j) (cellCol j) = none := by
    show e.boards i (idx33 (cellRow j) (cellCol j)) = none
    rw [idx33_cellRow_cellCol]
    exact hj
  have hmem : (⟨i, j⟩ : CMove) ∈ getValidMoves (toBoardState e) := by
    unfold getValidMoves
    rw [List.mem_flatMap]
    exact ⟨i, hplay _ rfl, boardMoves_mem hcell⟩
  exact List.ne_nil_of_mem hmem

/-- C10: in every reachable state, `activeBoard` is null or the index of a
sub-board that is neither won nor full; consequently, while the match is in
progress (no winner, no draw), the AI's legal-move enumeration is never
empty. -/
theorem activeBoard_playable (e : Engine) (h : Reachable e) :
    (e.activeBoard = none ∨
      ∃ i : Fin 9, e.activeBoard = some (i.val : Int) ∧
        e.meta i = none ∧ isFull (e.boards i) = false) ∧
    (e.winner = none → e.isDraw = false → getValidMoves (toBoardState e) ≠ []) := by
  have hi := inv_reachable h
  refine ⟨hi.2.2, ?_⟩
  intro hw hd
  have hdraw : checkGameDraw e.boards e.meta e.winner = false := by
    rw [← hi.1 hw]
    exact hd
  unfold checkGameDraw at hdraw
  rw [if_neg (by rw [hw]; exact fun hh => hh rfl)] at hdraw
  rw [decide_eq_false_iff_not] at hdraw
  push_neg at hdraw
  obtain ⟨i0, hm0, hf0x⟩ := hdraw
  have hf0 : isFull (e.boards i0) = false := by
    cases hfb : isFull (e.boards i0)
    · rfl
    · exact absurd hfb hf0x
  rcases hi.2.2 with hab | ⟨ia, haeq, hameta, hafull⟩
  · refine getValidMoves_ne_nil_of_playable hm0 hf0 ?_
    intro pb hpb
    have : (toBoardState e).activeBoard = none := by
      show e.activeBoard.bind toFin9 = none
      rw [hab]
      rfl
    rw [this] at hpb
    rcases hrules : (toBoardState e).gameRules with _ | _ <;>
      rw [hrules] at hpb <;> rw [← hpb] <;> exact mem_unwonBoards hm0
  · refine getValidMoves_ne_nil_of_playable hameta hafull ?_
    intro pb hpb
    have hact : (toBoardState e).activeBoard = some ia := by
      show e.activeBoard.bind toFin9 = some ia
      rw [haeq]
      show toFin9 (ia.val : Int) = some ia
      exact toFin9_coe ia
    rw [hact] at hpb
    rcases hrules : (toBoardState e).gameRules with _ | _ <;> rw [hrules] at hpb
    · have hbw : (toBoardState e).boardWinners ia = none := hameta
      dsimp only at hpb
      rw [if_pos hbw] at hpb
      rw [← hpb]
      exact List.mem_singleton.mpr rfl
    · rw [← hpb]
      exact mem_unwonBoards hameta

/-- Witness for C10 at a concrete state: the fresh standard match. -/
theorem activeBoard_playable_witness :
    ((freshEngine .standard).activeBoard = none ∨
      ∃ i : Fin 9, (freshEngine .standard).activeBoard = some (i.val : Int) ∧
        (freshEngine .standard).meta i = none ∧
        isFull ((freshEngine .standard).boards i) = false) ∧
    ((freshEngine .standard).winner = none → (freshEngine .standard).isDraw = false →
      getValidMoves (toBoardState (freshEngine .standard)) ≠ []) :=
  activeBoard_playable (freshEngine .standard) (.fresh .standard)

/-! ## C6 — the expert AI and immediate blocks -/

/-- Cell `j` of sub-board `b` blocks an immediate sub-board win of the
opponent: the cell is empty and the opponent's mark there would complete a
3-in-a-row on that sub-board (i.e. the opponent currently has two marks in
a line whose third cell is `j`). -/
def isBlockingCell (s : BoardState) (b j : Fin 9) : Prop :=
  s.smallBoards b (cellRow j) (cellCol j) = none ∧
  checkWinOnBoard (setBoardCell (s.smallBoards b) (cellRow j) (cellCol j)
    (some (otherPlayer s.currentPlayer))) (otherPlayer s.currentPlayer) = true

/-- The claim's "match-winning move": a valid move on an undecided board
that wins its sub-board and completes a meta-board 3-in-a-row. -/
def winsMatchMove (s : BoardState) (m : CMove) : Prop :=
  s.boardWinners m.boardIndex = none ∧
  checkWinOnBoard (setBoardCell (s.smallBoards m.boardIndex) (cellRow m.cellIndex)
    (cellCol m.cellIndex) (some s.currentPlayer)) s.currentPlayer = true ∧
  ∃ pat ∈ winPatterns,
    setCellF s.boardWinners m.boardIndex (some s.currentPlayer) pat.1 = some s.currentPlayer ∧
    setCellF s.boardWinners m.boardIndex (some s.currentPlayer) pat.2.1 = some s.currentPlayer ∧
    setCellF s.boardWinners m.boardIndex (some s.currentPlayer) pat.2.2 = some s.currentPlayer

instance (s : BoardState) (b j : Fin 9) : Decidable (isBlockingCell s b j) := by
  unfold isBlockingCell
  infer_instance

instance (s : BoardState) (m : CMove) : Decidable (winsMatchMove s m) := by
  unfold winsMatchMove
  infer_instance

theorem cellRow_idx33 (r c : Fin 3) : cellRow (idx33 r c) = r := by
  cases r with
  | mk rv hr =>
    cases c with
    | mk cv hc =>
      simp only [cellRow, idx33]
      exact Fin.ext (show (rv * 3 + cv) / 3 = rv by omega)

theorem cellCol_idx33 (r c : Fin 3) : cellCol (idx33 r c) = c := by
  cases r with
  | mk rv hr =>
    cases c with
    | mk cv hc =>
      simp only [cellCol, idx33]
      exact Fin.ext (show (rv * 3 + cv) % 3 = cv by omega)

/-- `findSome?` returns the unique possible result when every element maps
to `none` or to that result and some element maps to `some`. -/
theorem findSome_unique {α β : Type} (f : α → Option β) (b : β) :
    ∀ l : List α, (∀ a ∈ l, f a = none ∨ f a = some b) →
      (∃ a ∈ l, f a ≠ none) → l.findSome? f = some b := by
  intro l
  induction l with
  | nil =>
    intro _ hex
    obtain ⟨a, ha, _⟩ := hex
    cases ha
  | cons a l ih =>
    intro hall hex
    rw [List.findSome?_cons]
    rcases hfa : f a with _ | x
    · have hex2 : ∃ a2 ∈ l, f a2 ≠ none := by
        obtain ⟨a2, ha2, hne⟩ := hex
        rcases List.mem_cons.mp ha2 with rfl | hmm
        · exact absurd hfa hne
        · exact ⟨a2, hmm, hne⟩
      exact ih (fun a2 h2 => hall a2 (List.mem_cons_of_mem a h2)) hex2
    · rcases hall a (List.mem_cons_self a l) with hnone | hsome
      · rw [hfa] at hnone
        cases hnone
      · rw [hfa] at hsome
        exact hsome

theorem blockScanBoard_sound {board : Fin 3 → Fin 3 → Cell} {opponent : Player}
    {bIdx : Fin 9} {mv : CMove} (h : blockScanBoard board opponent bIdx = some mv) :
    mv.boardIndex = bIdx ∧ board (cellRow mv.cellIndex) (cellCol mv.cellIndex) = none ∧
      checkWinOnBoard (setBoardCell board (cellRow mv.cellIndex) (cellCol mv.cellIndex)
        (some opponent)) opponent = true := by
  unfold blockScanBoard at h
  obtain ⟨r, hr, hfr⟩ := List.exists_of_findSome?_eq_some h
  obtain ⟨c, hc, hfc⟩ := List.exists_of_findSome?_eq_some hfr
  by_cases h1 : board r c ≠ none
  · rw [if_pos h1] at hfc
    cases hfc
  · rw [if_neg h1] at hfc
    by_cases h2 : checkWinOnBoard (setBoardCell board r c (some opponent)) opponent = true
    · rw [if_pos h2] at hfc
      injection hfc with hfc
      subst hfc
      refine ⟨rfl, ?_, ?_⟩
      · show board (cellRow (idx33 r c)) (cellCol (idx33 r c)) = none
        rw [cellRow_idx33, cellCol_idx33]
        exact not_not.mp h1
      · show checkWinOnBoard (setBoardCell board (cellRow (idx33 r c))
          (cellCol (idx33 r c)) (some opponent)) opponent = true
        rw [cellRow_idx33, cellCol_idx33]
        exact h2
    · rw [if_neg h2] at hfc
      cases hfc

theorem blockScanBoard_complete {board : Fin 3 → Fin 3 → Cell} {opponent : Player}
    {bIdx : Fin 9} {j : Fin 9} (hempty : board (cellRow j) (cellCol j) = none)
    (hwin : checkWinOnBoard (setBoardCell board (cellRow j) (cellCol j)
      (some opponent)) opponent = true) :
    blockScanBoard board opponent bIdx ≠ none := by
  unfold blockScanBoard
  intro hnone
  rw [List.findSome?_eq_none_iff] at hnone
  have h1 := hnone (cellRow j) (List.mem_finRange _)
  rw [List.findSome?_eq_none_iff] at h1
  have h2 := h1 (cellCol j) (List.mem_finRange _)
  rw [if_neg (not_not_intro hempty), if_pos hwin] at h2
  cases h2

/-- With a unique immediate block available, `findBlockingMove` returns
exactly that cell. -/
theorem findBlockingMove_eq {s : BoardState} {vm : List CMove} {b0 c0 : Fin 9}
    (hmem : (⟨b0, c0⟩ : CMove) ∈ vm) (hb : isBlockingCell s b0 c0)
    (huniq : ∀ m ∈ vm, ∀ j : Fin 9, isBlockingCell s m.boardIndex j →
      m.boardIndex = b0 ∧ j = c0) :
    findBlockingMove s vm = some ⟨b0, c0⟩ := by
  unfold findBlockingMove
  refine findSome_unique _ _ vm ?_ ?_
  · intro m hm
    rcases hf : blockScanBoard (s.smallBoards m.boardIndex)
        (otherPlayer s.currentPlayer) m.boardIndex with _ | mv
    · exact Or.inl rfl
    · obtain ⟨hbi, hce, hcw⟩ := blockScanBoard_sound hf
      obtain ⟨he1, he2⟩ := huniq m hm mv.cellIndex ⟨hce, hcw⟩
      refine Or.inr ?_
      rw [show mv = (⟨b0, c0⟩ : CMove) from ?_]
      cases mv with
      | mk mb mc =>
        simp only at hbi
        rw [CMove.mk.injEq]
        exact ⟨hbi.trans he1, he2⟩
  · refine ⟨⟨b0, c0⟩, hmem, ?_⟩
    exact blockScanBoard_complete hb.1 hb.2

/-- Snapshot where the opponent `O` holds cells 0,1 of sub-board 0 (third
cell 2 empty and legal), while the mover `X` holds cells 0,1 of the center
sub-board 4 — so `X` also has a sub-board-winning move (4, 2) that wins
nothing on the meta-board. -/
def exBlockState : BoardState where
  smallBoards := fun i r c =>
    if i = 0 ∧ r = 0 ∧ (c = 0 ∨ c = 1) then some .O
    else if i = 4 ∧ r = 0 ∧ (c = 0 ∨ c = 1) then some .X
    else none
  boardWinners := fun _ => none
  currentPlayer := .X
  activeBoard := none
  gameRules := .standard

/-- Snapshot where the opponent `O` holds cells 0,1 of sub-board 0 and the
mover `X` has no marks at all: the block (0, 2) is the unique blocking cell
and no higher-priority move exists. -/
def uniqueBlockState : BoardState where
  smallBoards := fun i r c =>
    if i = 0 ∧ r = 0 ∧ (c = 0 ∨ c = 1) then some .O else none
  boardWinners := fun _ => none
  currentPlayer := .X
  activeBoard := none
  gameRules := .standard

/-- Counterexample to C6 as stated: in `exBlockState` the opponent has
two-in-a-row in sub-board 0 with the third cell (0, 2) empty and legal,
that is the only blocking cell, and no match-winning move exists — yet the
expert cascade returns the sub-board-winning move (4, 2), not the block,
because `findStrategicWinningMove` runs before `findBlockingMove`. -/
theorem expert_block_cex :
    isBlockingCell exBlockState 0 2 ∧
    (⟨0, 2⟩ : CMove) ∈ getValidMoves exBlockState ∧
    (∀ b j : Fin 9, isBlockingCell exBlockState b j → b = 0 ∧ j = 2) ∧
    (∀ m ∈ getValidMoves exBlockState, ¬ winsMatchMove exBlockState m) ∧
    getExpertMove exBlockState 0 = some ⟨4, 2⟩ ∧
    (⟨4, 2⟩ : CMove) ≠ (⟨0, 2⟩ : CMove) := by
  refine ⟨?_, ?_, ?_, ?_, ?_, ?_⟩ <;> decide

/-- C6 amended: when the opponent has two marks in a line of some
sub-board whose third cell is empty and legal, and that is the unique
blocking cell, the Strong (expert) AI returns that blocking cell — unless
one of the three higher-priority searches succeeds first: a match-winning
move, a move blocking the opponent's match win, or a sub-board-winning
move. -/
theorem expert_blocks (s : BoardState) (pick : Nat) (b0 c0 : Fin 9)
    (hmem : (⟨b0, c0⟩ : CMove) ∈ getValidMoves s)
    (hb : isBlockingCell s b0 c0)
    (huniq : ∀ m ∈ getValidMoves s, ∀ j : Fin 9,
      isBlockingCell s m.boardIndex j → m.boardIndex = b0 ∧ j = c0)
    (h1 : findGameWinningMove s (getValidMoves s) = none)
    (h2 : findGameBlockingMove s (getValidMoves s) = none)
    (h3 : findStrategicWinningMove s (getValidMoves s) = none) :
    getExpertMove s pick = some ⟨b0, c0⟩ := by
  have hfb := findBlockingMove_eq hmem hb huniq
  have hne : (getValidMoves s).isEmpty = false := by
    cases hl : getValidMoves s
    · rw [hl] at hmem
      cases hmem
    · rfl
  simp only [getExpertMove, hne, h1, h2, h3, hfb]
  exact if_neg Bool.false_ne_true

/-- Witness for the amended C6 at a concrete input: in `uniqueBlockState`
the expert AI plays the unique blocking cell (0, 2). -/
theorem expert_blocks_witness :
    getExpertMove uniqueBlockState 0 = some ⟨0, 2⟩ :=
  expert_blocks uniqueBlockState 0 0 2 (by decide) (by decide) (by decide)
    (by decide) (by decide) (by decide)

/-! ## C9 — the evaluation function matches its reference definition

`evalSpec` below is written from the specification's description of the
evaluation function; `evaluateBoard` above is the source translation.  The
spec's "short-circuits further evaluation" is the first complete line in
the fixed scan order (rows, columns, diagonals). -/

/-- Spec: a meta-board line completely held by `q`. -/
def specLineWin (bw : Fin 9 → Cell) (q : Player) (pat : Fin 9 × Fin 9 × Fin 9) : Bool :=
  decide (bw pat.1 = some q ∧ bw pat.2.1 = some q ∧ bw pat.2.2 = some q)

/-- Spec: the center bonus for a meta-line that includes sub-board 4. -/
def specCenterBonus (pat : Fin 9 × Fin 9 × Fin 9) (amt : Int) : Int :=
  if pat.1 = 4 ∨ pat.2.1 = 4 ∨ pat.2.2 = 4 then amt else 0

/-- Spec: the meta-line control score — +500 (+100 center) for
2-mover/0-opponent, −700 (−200 center) for 2-opponent/0-mover, +50 (+25)
and −40 (−20) for single-mark lines. -/
def specMetaLineScore (bw : Fin 9 → Cell) (p opponent : Player)
    (pat : Fin 9 × Fin 9 × Fin 9) : Int :=
  match (patternCells bw pat).count (some p),
      (patternCells bw pat).count (some opponent) with
  | 2, 0 => 500 + specCenterBonus pat 100
  | 0, 2 => -700 - specCenterBonus pat 200
  | 1, 0 => 50 + specCenterBonus pat 25
  | 0, 1 => -40 - specCenterBonus pat 20
  | _, _ => 0

/-- Spec: sub-board line scores +10 / −12 / +3 / −2. -/
def specSubLineScore (board : Fin 3 → Fin 3 → Cell) (p opponent : Player)
    (pat : Fin 9 × Fin 9 × Fin 9) : Int :=
  match (subPatternCells board pat).count (some p),
      (subPatternCells board pat).count (some opponent) with
  | 2, 0 => 10
  | 0, 2 => -12
  | 1, 0 => 3
  | 0, 1 => -2
  | _, _ => 0

/-- Spec: weight 3.0 for sub-board 4, 1.0 for edge sub-boards 1,3,5,7,
2.0 for the corner sub-boards. -/
def specBoardWeight (i : Fin 9) : Int :=
  if i = 4 then 3
  else if i = 1 ∨ i = 3 ∨ i = 5 ∨ i = 7 then 1
  else 2

/-- Spec: a decided sub-board contributes ±100×weight; an undecided one
contributes its summed line scores times its weight plus ±5×weight for its
center cell. -/
def specBoardScore (s : BoardState) (opponent : Player) (i : Fin 9) : Int :=
  match s.boardWinners i with
  | some q => (if q = s.currentPlayer then 100 else -100) * specBoardWeight i
  | none =>
    (winPatterns.map (specSubLineScore (s.smallBoards i) s.currentPlayer opponent)).sum *
      specBoardWeight i +
    (if s.smallBoards i 1 1 = some s.currentPlayer then 5 * specBoardWeight i
     else if s.smallBoards i 1 1 = some opponent then -5 * specBoardWeight i
     else 0)

/-- Spec: the whole evaluation — ±10000 at the first complete meta-line,
otherwise the sum of meta-line scores, weighted sub-board scores, and the
flat ±15 for the center cell of the center sub-board. -/
def evalSpec (s : BoardState) : Int :=
  let p := s.currentPlayer
  let opponent := otherPlayer p
  match winPatterns.find?
      (fun pat => specLineWin s.boardWinners p pat || specLineWin s.boardWinners opponent pat) with
  | some pat => if specLineWin s.boardWinners p pat then 10000 else -10000
  | none =>
    (winPatterns.map (specMetaLineScore s.boardWinners p opponent)).sum +
    ((List.finRange 9).map (specBoardScore s opponent)).sum +
    (if s.smallBoards 4 1 1 = some p then 15
     else if s.smallBoards 4 1 1 = some opponent then -15
     else 0)

theorem count3_iff : ∀ (x y z : Cell) (q : Player),
    (([x, y, z] : List Cell).count (some q) = 3) ↔
      (x = some q ∧ y = some q ∧ z = some q) := by
  decide

theorem bool_eq_false {b : Bool} (h : ¬ b = true) : b = false := by
  cases b
  · rfl
  · exact absurd rfl h

theorem specLineWin_count {bw : Fin 9 → Cell} {q : Player}
    {pat : Fin 9 × Fin 9 × Fin 9} :
    specLineWin bw q pat = true ↔ (patternCells bw pat).count (some q) = 3 := by
  unfold specLineWin patternCells
  rw [decide_eq_true_eq]
  exact (count3_iff (bw pat.1) (bw pat.2.1) (bw pat.2.2) q).symm

theorem metaLineDelta_eq_spec (bw : Fin 9 → Cell) (p opponent : Player)
    (pat : Fin 9 × Fin 9 × Fin 9) :
    metaLineDelta bw p opponent pat = specMetaLineScore bw p opponent pat := by
  simp only [metaLineDelta, specMetaLineScore, specCenterBonus, decide_eq_true_eq]
  generalize (patternCells bw pat).count (some p) = pc
  generalize (patternCells bw pat).count (some opponent) = oc
  rcases pc with _ | _ | _ | pc <;> rcases oc with _ | _ | _ | oc <;> simp

theorem subLineDelta_eq_spec (board : Fin 3 → Fin 3 → Cell) (p opponent : Player)
    (pat : Fin 9 × Fin 9 × Fin 9) :
    subLineDelta board p opponent pat = specSubLineScore board p opponent pat := by
  simp only [subLineDelta, specSubLineScore]
  generalize (subPatternCells board pat).count (some p) = pc
  generalize (subPatternCells board pat).count (some opponent) = oc
  rcases pc with _ | _ | _ | pc <;> rcases oc with _ | _ | _ | oc <;> simp

theorem boardWeights_eq : ∀ i : Fin 9, boardValueWeights i = specBoardWeight i := by
  decide

theorem foldl_add_eq_sum {α : Type} (f : α → Int) :
    ∀ (l : List α) (a : Int),
      l.foldl (fun acc x => acc + f x) a = a + (l.map f).sum := by
  intro l
  induction l with
  | nil =>
    intro a
    simp
  | cons x l ih =>
    intro a
    simp only [List.foldl_cons, List.map_cons, List.sum_cons, ih, add_assoc]

theorem boardContrib_eq_spec (s : BoardState) (opponent : Player) (i : Fin 9) :
    boardContrib s opponent i = specBoardScore s opponent i := by
  simp only [boardContrib, specBoardScore, boardWeights_eq]
  cases hbw : s.boardWinners i with
  | some q =>
    dsimp only
    by_cases hq : q = s.currentPlayer
    · rw [if_pos hq, if_pos hq]
    · rw [if_neg hq, if_neg hq, neg_mul]
  | none =>
    dsimp only
    rw [foldl_add_eq_sum, zero_add,
      funext (subLineDelta_eq_spec (s.smallBoards i) s.currentPlayer opponent)]

theorem metaScan_spec (bw : Fin 9 → Cell) (p opponent : Player) :
    ∀ (ps : List (Fin 9 × Fin 9 × Fin 9)) (acc : Int),
      metaScan bw p opponent ps acc =
        match ps.find? (fun pat => specLineWin bw p pat || specLineWin bw opponent pat) with
        | some pat => .error (if specLineWin bw p pat then 10000 else (-10000 : Int))
        | none => .ok (acc + (ps.map (metaLineDelta bw p opponent)).sum) := by
  intro ps
  induction ps with
  | nil =>
    intro acc
    simp [metaScan]
  | cons pat ps ih =>
    intro acc
    unfold metaScan
    rw [List.find?_cons]
    by_cases hA : (patternCells bw pat).count (some p) = 3
    · rw [if_pos hA]
      have hp : specLineWin bw p pat = true := specLineWin_count.mpr hA
      simp [hp]
    · rw [if_neg hA]
      have hp : specLineWin bw p pat = false :=
        bool_eq_false (fun hh => hA (specLineWin_count.mp hh))
      by_cases hB : (patternCells bw pat).count (some opponent) = 3
      · rw [if_pos hB]
        have ho : specLineWin bw opponent pat = true := specLineWin_count.mpr hB
        simp [hp, ho]
      · rw [if_neg hB]
        have ho : specLineWin bw opponent pat = false :=
          bool_eq_false (fun hh => hB (specLineWin_count.mp hh))
        simp only [hp, ho, Bool.false_or]
        rw [ih (acc + metaLineDelta bw p opponent pat)]
        cases hf : ps.find? (fun pat => specLineWin bw p pat || specLineWin bw opponent pat) with
        | some pat2 => rfl
        | none =>
          rw [List.map_cons, List.sum_cons, add_assoc]

/-- C9: `evaluateBoard` equals the reference evaluation `evalSpec` written
from the specification, on every board state. -/
theorem evaluateBoard_eq_spec (s : BoardState) : evaluateBoard s = evalSpec s := by
  simp only [evaluateBoard, evalSpec]
  rw [metaScan_spec]
  cases hf : winPatterns.find?
      (fun pat => specLineWin s.boardWinners s.currentPlayer pat ||
        specLineWin s.boardWinners (otherPlayer s.currentPlayer) pat) with
  | some pat => rfl
  | none =>
    dsimp only
    rw [foldl_add_eq_sum, zero_add,
      funext (metaLineDelta_eq_spec s.boardWinners s.currentPlayer
        (otherPlayer s.currentPlayer)),
      funext (boardContrib_eq_spec s (otherPlayer s.currentPlayer))]

end TicTacSquared
